import Mathlib

/-!
Verification of the `fxexport` trace-to-Firefox-Profiler converter.

Shallow embedding of the source under `src/fxexport/src/`:
  * `common.hpp`        — `ns_to_ms`, `is_kernel_address`, `toGraphColor`;
  * `string_table.hpp`  — `StringTable`;
  * `lib_table.hpp`     — `LibTable`;
  * `thread_tables.cpp` — interning tables, collectors, JSON serializers;
  * `fxexport.cpp`      — the meta block and the per-thread emission loop.

Modelling conventions:
  * C++ `double` values (times in milliseconds, weights) are modelled as `Rat`;
    the only operations performed on them by the modelled code are subtraction,
    addition and order comparison on values obtained from 64-bit integers
    divided by `10^6`.
  * Machine integers are `Nat`/`Int`; reductions modulo `2 ^ 32` / `2 ^ 64` are
    written out exactly where the C++ arithmetic can wrap.
  * `std::unordered_map` is modelled as an association list: the C++ code only
    ever inserts a key that is absent and looks keys up, so insertion order is
    immaterial.
  * Nullable `const char *` parameters are modelled as `Option String`; the
    C++ emptiness test `p && p[0]` becomes `isNonEmptyC`.
-/

/-- `common.hpp`: `ns_to_ms(ns) = (double)ns / 1e6`. -/
def ns_to_ms (ns : Int) : Rat := (ns : Rat) / 1000000

/-- `common.hpp`: `is_kernel_address(addr) = (addr >> 63) != 0` on `uint64_t`. -/
def is_kernel_address (addr : Nat) : Bool := (addr % 2 ^ 64) >>> 63 != 0

/-- `INT64_MAX`, the sentinel initial value of `ThreadTables::minTime`. -/
def int64Max : Int := 9223372036854775807

/-- The C-string emptiness test `p && p[0]` used throughout the source. -/
def isNonEmptyC (s : Option String) : Bool :=
  match s with
  | none => false
  | some str => str ≠ ""

/-- A palette entry of `toGraphColor` (`common.hpp`). -/
structure ColorDef where
  name : String
  r : Int
  g : Int
  b : Int
deriving DecidableEq, Repr

/-- The fixed palette of `toGraphColor`, in source order. -/
def palette : List ColorDef :=
  [⟨"blue", 0, 112, 243⟩,
   ⟨"green", 16, 185, 129⟩,
   ⟨"grey", 156, 163, 175⟩,
   ⟨"ink", 17, 24, 39⟩,
   ⟨"magenta", 236, 72, 153⟩,
   ⟨"orange", 249, 115, 22⟩,
   ⟨"purple", 168, 85, 247⟩,
   ⟨"red", 239, 68, 68⟩,
   ⟨"teal", 20, 184, 166⟩,
   ⟨"yellow", 234, 179, 8⟩]

/-- Squared Euclidean RGB distance.  The C++ compares
`sqrt(dr*dr+dg*dg+db*db)` as `double`; on integer inputs bounded by
`3 * 255 ^ 2` the correctly rounded square root is strictly monotone and
injective, so comparing squared distances selects exactly the same entries. -/
def sqDist (r g b : Int) (c : ColorDef) : Int :=
  (r - c.r) * (r - c.r) + (g - c.g) * (g - c.g) + (b - c.b) * (b - c.b)

/-- The selection loop of `toGraphColor`: the accumulator is the pair
`(closestColor, minDistance)`, `none` standing for the initial
`(nullopt, max)` state, and a candidate replaces it only when strictly
closer. -/
def closestAux (r g b : Int) (acc : Option (String × Int)) :
    List ColorDef → Option (String × Int)
  | [] => acc
  | c :: rest =>
      match acc with
      | none => closestAux r g b (some (c.name, sqDist r g b c)) rest
      | some (bn, bd) =>
          if sqDist r g b c < bd then closestAux r g b (some (c.name, sqDist r g b c)) rest
          else closestAux r g b (some (bn, bd)) rest

/-- `int r = (rgb >> 16) & 0xFF` of `toGraphColor`. -/
def rgbR (rgb : Nat) : Int := ((rgb >>> 16) % 256 : Nat)

/-- `int g = (rgb >> 8) & 0xFF` of `toGraphColor`. -/
def rgbG (rgb : Nat) : Int := ((rgb >>> 8) % 256 : Nat)

/-- `int b = rgb & 0xFF` of `toGraphColor`. -/
def rgbB (rgb : Nat) : Int := ((rgb % 256 : Nat) : Int)

/-- `toGraphColor` generalized over the palette list (to state order
(in)dependence). -/
def toGraphColorWith (pal : List ColorDef) (rgb : Nat) : Option String :=
  if rgbR rgb = 255 ∧ rgbG rgb = 255 ∧ rgbB rgb = 255 then none
  else (closestAux (rgbR rgb) (rgbG rgb) (rgbB rgb) none pal).map Prod.fst

/-- `common.hpp`: `toGraphColor`. -/
def toGraphColor (rgb : Nat) : Option String := toGraphColorWith palette rgb

/-- `string_table.hpp`: ordered string list plus the dedup map. -/
structure StringTable where
  strings : List String
  map : List (String × Nat)
deriving DecidableEq, Repr

/-- The empty string table. -/
def StringTable.empty : StringTable := ⟨[], []⟩

/-- `StringTable::intern(const std::string&)`. -/
def internStr (st : StringTable) (s : String) : Nat × StringTable :=
  match st.map.lookup s with
  | some idx => (idx, st)
  | none =>
      let idx := st.strings.length
      (idx, ⟨st.strings ++ [s], (s, idx) :: st.map⟩)

/-- `StringTable::intern(const char*)`: a null pointer is replaced by `""`. -/
def internCStr (st : StringTable) (s : Option String) : Nat × StringTable :=
  internStr st (s.getD "")

/-- `StringTable::to_json()`: the ordered string array. -/
def stringTableToJson (st : StringTable) : List String := st.strings

/-- Internal consistency of the dedup map: every mapped index holds exactly
the mapped string. -/
def StringTableWF (st : StringTable) : Prop :=
  ∀ s idx, st.map.lookup s = some idx → st.strings[idx]? = some s

/-- String tables produced by any sequence of `intern` calls from the empty
table. -/
inductive StringTableReachable : StringTable → Prop
  | init : StringTableReachable StringTable.empty
  | stepStr (st : StringTable) (s : String) :
      StringTableReachable st → StringTableReachable (internStr st s).2
  | stepCStr (st : StringTable) (s : Option String) :
      StringTableReachable st → StringTableReachable (internCStr st s).2

theorem internStr_wf (st : StringTable) (hwf : StringTableWF st) (s : String) :
    StringTableWF (internStr st s).2 := by
  intro s' idx h
  unfold internStr at h ⊢
  cases hm : st.map.lookup s with
  | some i => simpa [hm] using hwf s' idx (by simpa [hm] using h)
  | none =>
      simp only [hm] at h ⊢
      rcases hs : (s' == s) with _ | _
      · have hlk : st.map.lookup s' = some idx := by
          simpa [List.lookup, hs] using h
        have := hwf s' idx hlk
        have hlt : idx < st.strings.length := by
          exact (List.getElem?_eq_some_iff.mp this).1
        simpa [List.getElem?_append_left hlt] using this
      · have hse : s' = s := by simpa using hs
        have hidx : idx = st.strings.length := by
          have := h
          simp [List.lookup, hs] at this
          omega
        subst hse hidx
        simp

theorem reachable_wf (st : StringTable) (h : StringTableReachable st) :
    StringTableWF st := by
  induction h with
  | init => intro s idx h; simp [StringTable.empty, List.lookup] at h
  | stepStr st s _ ih => exact internStr_wf st ih s
  | stepCStr st s _ ih => exact internStr_wf st ih (s.getD "")

/-- C5: `intern` is idempotent (same index and unchanged state on the second
call), the returned index always indexes the interned string in `to_json`'s
`stringArray`, and `intern(nullptr)` coincides with `intern("")`. -/
theorem stringTable_intern_correct (st : StringTable)
    (h : StringTableReachable st) (s : String) :
    (internStr (internStr st s).2 s).1 = (internStr st s).1 ∧
    (internStr (internStr st s).2 s).2 = (internStr st s).2 ∧
    (stringTableToJson (internStr st s).2)[(internStr st s).1]? = some s ∧
    internCStr st none = internStr st "" := by
  have hwf := reachable_wf st h
  have key : (internStr (internStr st s).2 s).1 = (internStr st s).1 ∧
      (internStr (internStr st s).2 s).2 = (internStr st s).2 ∧
      ((internStr st s).2.strings)[(internStr st s).1]? = some s := by
    unfold internStr
    cases hm : st.map.lookup s with
    | some i =>
        have := hwf s i hm
        simp [hm, this]
    | none => simp [hm, List.lookup]
  exact ⟨key.1, key.2.1, key.2.2, rfl⟩

/-- Witness for C5 at a concrete reachable table. -/
theorem stringTable_intern_correct_witness :
    (internStr (internStr (internCStr StringTable.empty (some "a")).2 "b").2 "b").1
        = (internStr (internCStr StringTable.empty (some "a")).2 "b").1 ∧
    (internStr (internStr (internCStr StringTable.empty (some "a")).2 "b").2 "b").2
        = (internStr (internCStr StringTable.empty (some "a")).2 "b").2 ∧
    (stringTableToJson (internStr (internCStr StringTable.empty (some "a")).2 "b").2)[
        (internStr (internCStr StringTable.empty (some "a")).2 "b").1]? = some "b" ∧
    internCStr (internCStr StringTable.empty (some "a")).2 none
        = internStr (internCStr StringTable.empty (some "a")).2 "" :=
  stringTable_intern_correct (internCStr StringTable.empty (some "a")).2
    (StringTableReachable.stepCStr _ _ StringTableReachable.init) "b"

/-- Invariant of the `toGraphColor` selection loop started with best candidate
`(bn, bd)`: the final candidate is no farther than `bd` and than every
remaining palette entry, and it is either the incoming candidate or a listed
entry that strictly improved on `bd` and on everything listed before it. -/
theorem closestAux_spec (r g b : Int) (pal : List ColorDef) :
    ∀ (bn : String) (bd : Int),
      ∃ n d, closestAux r g b (some (bn, bd)) pal = some (n, d) ∧
        d ≤ bd ∧ (∀ c ∈ pal, d ≤ sqDist r g b c) ∧
        ((n = bn ∧ d = bd) ∨
          ∃ pre c post, pal = pre ++ c :: post ∧ c.name = n ∧ sqDist r g b c = d ∧
            d < bd ∧ ∀ c' ∈ pre, d < sqDist r g b c') := by
  induction pal with
  | nil =>
      intro bn bd
      exact ⟨bn, bd, rfl, le_refl bd, by simp, Or.inl ⟨rfl, rfl⟩⟩
  | cons c rest ih =>
      intro bn bd
      by_cases hlt : sqDist r g b c < bd
      · obtain ⟨n, d, heq, hle, hmin, hdis⟩ := ih c.name (sqDist r g b c)
        refine ⟨n, d, by simp [closestAux, hlt, heq], hle.trans hlt.le, ?_, ?_⟩
        · intro c' hc'
          rcases List.mem_cons.mp hc' with h | h
          · exact h ▸ hle
          · exact hmin c' h
        · rcases hdis with ⟨hn, hd⟩ | ⟨pre, cc, post, hrest, hname, hdist, hdlt, hpre⟩
          · exact Or.inr ⟨[], c, rest, rfl, hn.symm, hd.symm, hd ▸ hlt, by simp⟩
          · exact Or.inr ⟨c :: pre, cc, post, by simp [hrest], hname, hdist,
              hdlt.trans hlt, by
                intro c' hc'
                rcases List.mem_cons.mp hc' with h | h
                · exact h ▸ hdlt
                · exact hpre c' h⟩
      · obtain ⟨n, d, heq, hle, hmin, hdis⟩ := ih bn bd
        refine ⟨n, d, by simp [closestAux, hlt, heq], hle, ?_, ?_⟩
        · intro c' hc'
          rcases List.mem_cons.mp hc' with h | h
          · exact h ▸ (hle.trans (not_lt.mp hlt))
          · exact hmin c' h
        · rcases hdis with ⟨hn, hd⟩ | ⟨pre, cc, post, hrest, hname, hdist, hdlt, hpre⟩
          · exact Or.inl ⟨hn, hd⟩
          · exact Or.inr ⟨c :: pre, cc, post, by simp [hrest], hname, hdist, hdlt, by
              intro c' hc'
              rcases List.mem_cons.mp hc' with h | h
              · exact h ▸ (hdlt.trans_le (not_lt.mp hlt))
              · exact hpre c' h⟩

/-- The `toGraphColor` loop over a nonempty palette returns the first palette
entry of minimal squared distance. -/
theorem closestIn_spec (r g b : Int) (pal : List ColorDef) (hne : pal ≠ []) :
    ∃ pre c post, pal = pre ++ c :: post ∧
      (closestAux r g b none pal).map Prod.fst = some c.name ∧
      (∀ c' ∈ pal, sqDist r g b c ≤ sqDist r g b c') ∧
      (∀ c' ∈ pre, sqDist r g b c < sqDist r g b c') := by
  match pal, hne with
  | c0 :: rest, _ =>
    obtain ⟨n, d, heq, hle, hmin, hdis⟩ := closestAux_spec r g b rest c0.name (sqDist r g b c0)
    have hstep : closestAux r g b none (c0 :: rest) = some (n, d) := by
      simp [closestAux, heq]
    rcases hdis with ⟨hn, hd⟩ | ⟨pre, cc, post, hrest, hname, hdist, hdlt, hpre⟩
    · refine ⟨[], c0, rest, rfl, by simp [hstep, hn], ?_, by simp⟩
      intro c' hc'
      rcases List.mem_cons.mp hc' with h | h
      · exact h ▸ le_refl _
      · exact hd ▸ hmin c' h
    · refine ⟨c0 :: pre, cc, post, by simp [hrest], by simp [hstep, hname], ?_, ?_⟩
      · intro c' hc'
        rcases List.mem_cons.mp hc' with h | h
        · exact hdist ▸ (h ▸ hle)
        · exact hdist ▸ hmin c' h
      · intro c' hc'
        rcases List.mem_cons.mp hc' with h | h
        · exact hdist ▸ (h ▸ hdlt)
        · exact hdist ▸ hpre c' h

/-- C7 (amended): `toGraphColor` maps every `u32` whose low 24 bits decode to
pure white to "no color", and maps every other `u32` to the name of the first
palette entry of minimal Euclidean RGB distance: the chosen entry's distance
is minimal over the palette and strictly below that of every entry listed
before it, so palette order matters exactly on ties (which exist; see the
counterexample). -/
theorem toGraphColor_corrected (rgb : Nat)
    (hw : ¬(rgbR rgb = 255 ∧ rgbG rgb = 255 ∧ rgbB rgb = 255)) :
    (∀ rgbw : Nat, rgbR rgbw = 255 ∧ rgbG rgbw = 255 ∧ rgbB rgbw = 255 →
        toGraphColor rgbw = none) ∧
    ∃ pre c post, palette = pre ++ c :: post ∧
      toGraphColor rgb = some c.name ∧
      (∀ c' ∈ palette, sqDist (rgbR rgb) (rgbG rgb) (rgbB rgb) c
          ≤ sqDist (rgbR rgb) (rgbG rgb) (rgbB rgb) c') ∧
      (∀ c' ∈ pre, sqDist (rgbR rgb) (rgbG rgb) (rgbB rgb) c
          < sqDist (rgbR rgb) (rgbG rgb) (rgbB rgb) c') := by
  constructor
  · intro rgbw hww
    simp [toGraphColor, toGraphColorWith, hww]
  · obtain ⟨pre, c, post, hpal, hmap, hmin, hpre⟩ :=
      closestIn_spec (rgbR rgb) (rgbG rgb) (rgbB rgb) palette (by simp [palette])
    exact ⟨pre, c, post, hpal, by simpa [toGraphColor, toGraphColorWith, hw] using hmap,
      hmin, hpre⟩

/-- Witness for C7 at the concrete input `0x00A895`. -/
theorem toGraphColor_corrected_witness :
    (∀ rgbw : Nat, rgbR rgbw = 255 ∧ rgbG rgbw = 255 ∧ rgbB rgbw = 255 →
        toGraphColor rgbw = none) ∧
    ∃ pre c post, palette = pre ++ c :: post ∧
      toGraphColor 43157 = some c.name ∧
      (∀ c' ∈ palette, sqDist (rgbR 43157) (rgbG 43157) (rgbB 43157) c
          ≤ sqDist (rgbR 43157) (rgbG 43157) (rgbB 43157) c') ∧
      (∀ c' ∈ pre, sqDist (rgbR 43157) (rgbG 43157) (rgbB 43157) c
          < sqDist (rgbR 43157) (rgbG 43157) (rgbB 43157) c') :=
  toGraphColor_corrected 43157 (by decide)

/-- The palette of `toGraphColor` with `teal` moved to the front — a
permutation of the source palette used to exhibit order dependence. -/
def palettePermuted : List ColorDef :=
  [⟨"teal", 20, 184, 166⟩,
   ⟨"blue", 0, 112, 243⟩,
   ⟨"green", 16, 185, 129⟩,
   ⟨"grey", 156, 163, 175⟩,
   ⟨"ink", 17, 24, 39⟩,
   ⟨"magenta", 236, 72, 153⟩,
   ⟨"orange", 249, 115, 22⟩,
   ⟨"purple", 168, 85, 247⟩,
   ⟨"red", 239, 68, 68⟩,
   ⟨"yellow", 234, 179, 8⟩]

/-- Counterexample to C7 as stated: on input `0x00A895` (RGB `(0,168,149)`,
squared distance 945 to both `green` and `teal`) the minimizer is not unique
and a permutation of the palette changes the output, and the non-white input
`0x01FFFFFF` is mapped to "no color" rather than to a palette name. -/
theorem toGraphColor_counterexample :
    List.Perm palette palettePermuted ∧
    toGraphColorWith palette 43157 = some "green" ∧
    toGraphColorWith palettePermuted 43157 = some "teal" ∧
    sqDist (rgbR 43157) (rgbG 43157) (rgbB 43157) ⟨"green", 16, 185, 129⟩ =
      sqDist (rgbR 43157) (rgbG 43157) (rgbB 43157) ⟨"teal", 20, 184, 166⟩ ∧
    toGraphColor 33554431 = none ∧ (33554431 : Nat) ≠ 16777215 := by
  exact ⟨by decide, by decide, by decide, by decide, by decide, by decide⟩

/-- `ThreadTables::FrameEntry` (`thread_tables.hpp`). -/
structure FrameEntry where
  funcIdx : Nat
  nativeSymbolIdx : Nat
  category : Nat
  address : Int
  line : Nat
  column : Nat
  inlineDepth : Nat
deriving DecidableEq, Repr

/-- `ThreadTables::FuncEntry`. -/
structure FuncEntry where
  nameIdx : Nat
  resourceIdx : Int
  fileNameIdx : Nat
  lineNumber : Nat
  columnNumber : Nat
deriving DecidableEq, Repr

/-- `ThreadTables::NativeSymbolEntry`. -/
structure NativeSymbolEntry where
  libIndex : Int
  address : Nat
  nameIdx : Nat
  functionSize : Nat
deriving DecidableEq, Repr

/-- `ThreadTables::ResourceEntry`. -/
structure ResourceEntry where
  libIdx : Int
  nameIdx : Nat
deriving DecidableEq, Repr

/-- `ThreadTables::StackEntry`.  The C++ field `prefix` is named `prefixIdx`
here because `prefix` is a Lean keyword. -/
structure StackEntry where
  prefixIdx : Int
  frame : Nat
deriving DecidableEq, Repr

/-- `ThreadTables::SampleEntry`. -/
structure SampleEntry where
  time : Rat
  stackIdx : Int
  weight : Rat
deriving DecidableEq, Repr

/-- `ThreadTables::AllocationEntry`. -/
structure AllocationEntry where
  time : Rat
  weight : Int
  stackIdx : Int
  memoryAddress : Nat
  threadId : Nat
deriving DecidableEq, Repr

/-- `MarkerPhase` (`thread_tables.hpp`). -/
inductive MarkerPhase where
  | instant
  | interval
  | intervalStart
  | intervalEnd
deriving DecidableEq, Repr

/-- `static_cast<int>(phase)` used by `markersToJson`. -/
def MarkerPhase.toInt : MarkerPhase → Nat
  | .instant => 0
  | .interval => 1
  | .intervalStart => 2
  | .intervalEnd => 3

/-- The `data` blob of a `TracyZone` marker as built by `collectZone`:
interned name plus the optional text / color / file+line / function fields.
Only the zone payload is modelled; no claim depends on the payloads of the
other marker kinds. -/
structure ZoneMarkerData where
  name : Nat
  text : Option Nat
  color : Option String
  file : Option Nat
  line : Option Nat
  function : Option Nat
deriving DecidableEq, Repr

/-- The `data` blob of a marker.  The zone payload is modelled in full and
the lock payload carries the fields written by `processLocks`; the payloads
of the remaining marker kinds are not needed by any claim. -/
inductive MarkerData where
  | zone (d : ZoneMarkerData)
  | lock (name : Nat) (lockId : Nat) (operation : String)
deriving DecidableEq, Repr

/-- `ThreadTables::MarkerEntry`. -/
structure MarkerEntry where
  type : String
  category : Nat
  nameIdx : Nat
  startTime : Rat
  endTime : Rat
  phase : MarkerPhase
  data : MarkerData
deriving DecidableEq, Repr

/-- Output object of `ThreadTables::frameTableToJson`. -/
structure FrameTableJson where
  length : Nat
  address : List Int
  category : List Nat
  subcategory : List (Option Nat)
  func : List Nat
  nativeSymbol : List Nat
  innerWindowID : List (Option Nat)
  line : List (Option Nat)
  column : List (Option Nat)
  inlineDepth : List Nat

/-- `ThreadTables::frameTableToJson`: one loop over `frames` pushing one
element per row into each column array. -/
def frameTableToJson (frames : List FrameEntry) : FrameTableJson where
  length := frames.length
  address := frames.map (·.address)
  category := frames.map (·.category)
  subcategory := frames.map fun _ => none
  func := frames.map (·.funcIdx)
  nativeSymbol := frames.map (·.nativeSymbolIdx)
  innerWindowID := frames.map fun _ => none
  line := frames.map fun f => if f.line > 0 then some f.line else none
  column := frames.map fun f => if f.column > 0 then some f.column else none
  inlineDepth := frames.map (·.inlineDepth)

/-- Output object of `ThreadTables::funcTableToJson`. -/
structure FuncTableJson where
  length : Nat
  name : List Nat
  isJS : List Bool
  relevantForJS : List Bool
  resource : List Int
  fileName : List Nat
  lineNumber : List (Option Nat)
  columnNumber : List (Option Nat)

/-- `ThreadTables::funcTableToJson`. -/
def funcTableToJson (funcs : List FuncEntry) : FuncTableJson where
  length := funcs.length
  name := funcs.map (·.nameIdx)
  isJS := funcs.map fun _ => false
  relevantForJS := funcs.map fun _ => false
  resource := funcs.map (·.resourceIdx)
  fileName := funcs.map (·.fileNameIdx)
  lineNumber := funcs.map fun f => if f.lineNumber > 0 then some f.lineNumber else none
  columnNumber := funcs.map fun f => if f.columnNumber > 0 then some f.columnNumber else none

/-- Output object of `ThreadTables::nativeSymbolsToJson`. -/
structure NativeSymbolsJson where
  length : Nat
  libIndex : List Int
  address : List Nat
  name : List Nat
  functionSize : List (Option Nat)

/-- `ThreadTables::nativeSymbolsToJson`. -/
def nativeSymbolsToJson (nativeSymbols : List NativeSymbolEntry) : NativeSymbolsJson where
  length := nativeSymbols.length
  libIndex := nativeSymbols.map (·.libIndex)
  address := nativeSymbols.map (·.address)
  name := nativeSymbols.map (·.nameIdx)
  functionSize := nativeSymbols.map fun s =>
    if s.functionSize > 0 then some s.functionSize else none

/-- Output object of `ThreadTables::resourceTableToJson`. -/
structure ResourceTableJson where
  length : Nat
  lib : List Int
  name : List Nat
  host : List (Option Nat)
  type : List Nat

/-- `ThreadTables::resourceTableToJson`. -/
def resourceTableToJson (resources : List ResourceEntry) : ResourceTableJson where
  length := resources.length
  lib := resources.map (·.libIdx)
  name := resources.map (·.nameIdx)
  host := resources.map fun _ => none
  type := resources.map fun _ => 1

/-- Output object of `ThreadTables::stackTableToJson`; the JSON field
`prefix` is named `prefixIdx` here (Lean keyword). -/
structure StackTableJson where
  length : Nat
  prefixIdx : List (Option Nat)
  frame : List Nat

/-- `ThreadTables::stackTableToJson`. -/
def stackTableToJson (stackRows : List StackEntry) : StackTableJson where
  length := stackRows.length
  prefixIdx := stackRows.map fun s => if 0 ≤ s.prefixIdx then some s.prefixIdx.toNat else none
  frame := stackRows.map (·.frame)

/-- The running `timeDeltas` computation of `ThreadTables::samplesToJson`:
`prevTime` starts at `0.0` and each row emits `s.time - prevTime`. -/
def timeDeltasFrom (prevTime : Rat) : List SampleEntry → List Rat
  | [] => []
  | s :: rest => (s.time - prevTime) :: timeDeltasFrom s.time rest

/-- Output object of `ThreadTables::samplesToJson`. -/
structure SamplesJson where
  length : Nat
  stack : List (Option Nat)
  timeDeltas : List Rat
  weight : List Rat
  weightType : String
  threadCPUDelta : List (Option Nat)

/-- `ThreadTables::samplesToJson`. -/
def samplesToJson (samples : List SampleEntry) : SamplesJson where
  length := samples.length
  stack := samples.map fun s => if 0 ≤ s.stackIdx then some s.stackIdx.toNat else none
  timeDeltas := timeDeltasFrom 0 samples
  weight := samples.map (·.weight)
  weightType := "samples"
  threadCPUDelta := samples.map fun _ => none

/-- Output object of `ThreadTables::nativeAllocationsToJson`. -/
structure NativeAllocationsJson where
  length : Nat
  time : List Rat
  weight : List Int
  weightType : String
  stack : List (Option Nat)
  memoryAddress : List Nat
  threadId : List Nat

/-- `ThreadTables::nativeAllocationsToJson`. -/
def nativeAllocationsToJson (allocations : List AllocationEntry) : NativeAllocationsJson where
  length := allocations.length
  time := allocations.map (·.time)
  weight := allocations.map (·.weight)
  weightType := "bytes"
  stack := allocations.map fun a => if 0 ≤ a.stackIdx then some a.stackIdx.toNat else none
  memoryAddress := allocations.map (·.memoryAddress)
  threadId := allocations.map (·.threadId)

/-- Output object of `ThreadTables::markersToJson`. -/
structure MarkersJson where
  length : Nat
  category : List Nat
  data : List MarkerData
  name : List Nat
  startTime : List Rat
  endTime : List Rat
  phase : List Nat

/-- `ThreadTables::markersToJson`. -/
def markersToJson (markers : List MarkerEntry) : MarkersJson where
  length := markers.length
  category := markers.map (·.category)
  data := markers.map (·.data)
  name := markers.map (·.nameIdx)
  startTime := markers.map (·.startTime)
  endTime := markers.map (·.endTime)
  phase := markers.map fun m => m.phase.toInt

theorem timeDeltasFrom_length (prevTime : Rat) (samples : List SampleEntry) :
    (timeDeltasFrom prevTime samples).length = samples.length := by
  induction samples generalizing prevTime with
  | nil => rfl
  | cons s rest ih => simp [timeDeltasFrom, ih]

/-- C1: for each of the eight `ThreadTables` serializers, every parallel
column array of the emitted object has length equal to the emitted `length`
field, which equals the number of rows of the underlying table. -/
theorem tables_columns_length_eq_length :
    (∀ frames : List FrameEntry,
      (frameTableToJson frames).length = frames.length ∧
      (frameTableToJson frames).address.length = (frameTableToJson frames).length ∧
      (frameTableToJson frames).category.length = (frameTableToJson frames).length ∧
      (frameTableToJson frames).subcategory.length = (frameTableToJson frames).length ∧
      (frameTableToJson frames).func.length = (frameTableToJson frames).length ∧
      (frameTableToJson frames).nativeSymbol.length = (frameTableToJson frames).length ∧
      (frameTableToJson frames).innerWindowID.length = (frameTableToJson frames).length ∧
      (frameTableToJson frames).line.length = (frameTableToJson frames).length ∧
      (frameTableToJson frames).column.length = (frameTableToJson frames).length ∧
      (frameTableToJson frames).inlineDepth.length = (frameTableToJson frames).length) ∧
    (∀ funcs : List FuncEntry,
      (funcTableToJson funcs).length = funcs.length ∧
      (funcTableToJson funcs).name.length = (funcTableToJson funcs).length ∧
      (funcTableToJson funcs).isJS.length = (funcTableToJson funcs).length ∧
      (funcTableToJson funcs).relevantForJS.length = (funcTableToJson funcs).length ∧
      (funcTableToJson funcs).resource.length = (funcTableToJson funcs).length ∧
      (funcTableToJson funcs).fileName.length = (funcTableToJson funcs).length ∧
      (funcTableToJson funcs).lineNumber.length = (funcTableToJson funcs).length ∧
      (funcTableToJson funcs).columnNumber.length = (funcTableToJson funcs).length) ∧
    (∀ syms : List NativeSymbolEntry,
      (nativeSymbolsToJson syms).length = syms.length ∧
      (nativeSymbolsToJson syms).libIndex.length = (nativeSymbolsToJson syms).length ∧
      (nativeSymbolsToJson syms).address.length = (nativeSymbolsToJson syms).length ∧
      (nativeSymbolsToJson syms).name.length = (nativeSymbolsToJson syms).length ∧
      (nativeSymbolsToJson syms).functionSize.length = (nativeSymbolsToJson syms).length) ∧
    (∀ resources : List ResourceEntry,
      (resourceTableToJson resources).length = resources.length ∧
      (resourceTableToJson resources).lib.length = (resourceTableToJson resources).length ∧
      (resourceTableToJson resources).name.length = (resourceTableToJson resources).length ∧
      (resourceTableToJson resources).host.length = (resourceTableToJson resources).length ∧
      (resourceTableToJson resources).type.length = (resourceTableToJson resources).length) ∧
    (∀ stackRows : List StackEntry,
      (stackTableToJson stackRows).length = stackRows.length ∧
      (stackTableToJson stackRows).prefixIdx.length = (stackTableToJson stackRows).length ∧
      (stackTableToJson stackRows).frame.length = (stackTableToJson stackRows).length) ∧
    (∀ samples : List SampleEntry,
      (samplesToJson samples).length = samples.length ∧
      (samplesToJson samples).stack.length = (samplesToJson samples).length ∧
      (samplesToJson samples).timeDeltas.length = (samplesToJson samples).length ∧
      (samplesToJson samples).weight.length = (samplesToJson samples).length ∧
      (samplesToJson samples).threadCPUDelta.length = (samplesToJson samples).length) ∧
    (∀ allocations : List AllocationEntry,
      (nativeAllocationsToJson allocations).length = allocations.length ∧
      (nativeAllocationsToJson allocations).time.length
        = (nativeAllocationsToJson allocations).length ∧
      (nativeAllocationsToJson allocations).weight.length
        = (nativeAllocationsToJson allocations).length ∧
      (nativeAllocationsToJson allocations).stack.length
        = (nativeAllocationsToJson allocations).length ∧
      (nativeAllocationsToJson allocations).memoryAddress.length
        = (nativeAllocationsToJson allocations).length ∧
      (nativeAllocationsToJson allocations).threadId.length
        = (nativeAllocationsToJson allocations).length) ∧
    (∀ markers : List MarkerEntry,
      (markersToJson markers).length = markers.length ∧
      (markersToJson markers).category.length = (markersToJson markers).length ∧
      (markersToJson markers).data.length = (markersToJson markers).length ∧
      (markersToJson markers).name.length = (markersToJson markers).length ∧
      (markersToJson markers).startTime.length = (markersToJson markers).length ∧
      (markersToJson markers).endTime.length = (markersToJson markers).length ∧
      (markersToJson markers).phase.length = (markersToJson markers).length) := by
  refine ⟨?_, ?_, ?_, ?_, ?_, ?_, ?_, ?_⟩ <;> intro l <;>
    simp [frameTableToJson, funcTableToJson, nativeSymbolsToJson, resourceTableToJson,
      stackTableToJson, samplesToJson, nativeAllocationsToJson, markersToJson,
      timeDeltasFrom_length]

/-- First element of the emitted `timeDeltas`: the first sample's time minus
the initial `prevTime`. -/
theorem timeDeltasFrom_head (prevTime : Rat) (samples : List SampleEntry)
    (a : SampleEntry) (ha : samples[0]? = some a) :
    (timeDeltasFrom prevTime samples)[0]? = some (a.time - prevTime) := by
  cases samples with
  | nil => simp at ha
  | cons s rest =>
      simp at ha
      simp [timeDeltasFrom, ha]

/-- Later elements of the emitted `timeDeltas`: consecutive time differences. -/
theorem timeDeltasFrom_succ (samples : List SampleEntry) :
    ∀ (prevTime : Rat) (i : Nat) (a b : SampleEntry),
      samples[i]? = some a → samples[i + 1]? = some b →
      (timeDeltasFrom prevTime samples)[i + 1]? = some (b.time - a.time) := by
  induction samples with
  | nil => intro prevTime i a b ha; simp at ha
  | cons s rest ih =>
      intro prevTime i a b ha hb
      cases i with
      | zero =>
          simp at ha
          subst ha
          simp only [List.getElem?_cons_succ] at hb
          simpa [timeDeltasFrom] using timeDeltasFrom_head s.time rest b hb
      | succ j =>
          simp only [List.getElem?_cons_succ] at ha hb
          simp [timeDeltasFrom, ih s.time j a b ha hb]

/-- The running prefix-sum loop (`cumsum`) used to state reconstruction of
absolute sample times from `timeDeltas`. -/
def cumsumFrom (acc : Rat) : List Rat → List Rat
  | [] => []
  | x :: rest => (acc + x) :: cumsumFrom (acc + x) rest

/-- Prefix sums of a delta list. -/
def cumsum (l : List Rat) : List Rat := cumsumFrom 0 l

theorem cumsumFrom_timeDeltasFrom (samples : List SampleEntry) :
    ∀ p : Rat, cumsumFrom p (timeDeltasFrom p samples) = samples.map SampleEntry.time := by
  induction samples with
  | nil => intro p; rfl
  | cons s rest ih =>
      intro p
      simp only [timeDeltasFrom, cumsumFrom, List.map_cons]
      rw [show p + (s.time - p) = s.time by ring]
      rw [ih s.time]

/-- C2: for a sample list sorted nondecreasing by time, `samplesToJson` emits
`timeDeltas` whose element 0 is the first sample's absolute time, whose
element `i ≥ 1` is `time[i] - time[i-1]`, and whose prefix sums reconstruct
the absolute times and are nondecreasing. -/
theorem samples_timeDeltas_correct (samples : List SampleEntry)
    (hsorted : List.Chain' (fun a b => a.time ≤ b.time) samples) :
    (∀ a : SampleEntry, samples[0]? = some a →
      (samplesToJson samples).timeDeltas[0]? = some a.time) ∧
    (∀ (i : Nat) (a b : SampleEntry), samples[i]? = some a → samples[i + 1]? = some b →
      (samplesToJson samples).timeDeltas[i + 1]? = some (b.time - a.time)) ∧
    cumsum (samplesToJson samples).timeDeltas = samples.map SampleEntry.time ∧
    List.Chain' (· ≤ ·) (cumsum (samplesToJson samples).timeDeltas) := by
  have hrec : cumsum (samplesToJson samples).timeDeltas = samples.map SampleEntry.time := by
    simpa [samplesToJson, cumsum] using cumsumFrom_timeDeltasFrom samples 0
  refine ⟨?_, ?_, hrec, ?_⟩
  · intro a ha
    simpa using timeDeltasFrom_head 0 samples a ha
  · intro i a b ha hb
    simpa [samplesToJson] using timeDeltasFrom_succ samples 0 i a b ha hb
  · rw [hrec, List.chain'_map]
    exact hsorted

/-- Witness for C2 at a concrete sorted sample list. -/
theorem samples_timeDeltas_correct_witness :
    (∀ a : SampleEntry, ([⟨1, -1, 1⟩, ⟨3, 0, 1⟩] : List SampleEntry)[0]? = some a →
      (samplesToJson [⟨1, -1, 1⟩, ⟨3, 0, 1⟩]).timeDeltas[0]? = some a.time) ∧
    (∀ (i : Nat) (a b : SampleEntry),
      ([⟨1, -1, 1⟩, ⟨3, 0, 1⟩] : List SampleEntry)[i]? = some a →
      ([⟨1, -1, 1⟩, ⟨3, 0, 1⟩] : List SampleEntry)[i + 1]? = some b →
      (samplesToJson [⟨1, -1, 1⟩, ⟨3, 0, 1⟩]).timeDeltas[i + 1]? = some (b.time - a.time)) ∧
    cumsum (samplesToJson [⟨1, -1, 1⟩, ⟨3, 0, 1⟩]).timeDeltas
      = ([⟨1, -1, 1⟩, ⟨3, 0, 1⟩] : List SampleEntry).map SampleEntry.time ∧
    List.Chain' (· ≤ ·) (cumsum (samplesToJson [⟨1, -1, 1⟩, ⟨3, 0, 1⟩]).timeDeltas) :=
  samples_timeDeltas_correct [⟨1, -1, 1⟩, ⟨3, 0, 1⟩] (by
    refine List.chain'_cons.mpr ⟨?_, by simp⟩
    norm_num)

/-- `int32_t` two's-complement wraparound of `prefix + 1` in the stack key. -/
def wrap32 (x : Int) : Int := (x + 2147483648) % 4294967296 - 2147483648

/-- Sign extension of an `int32_t` value into a `uint64_t` bit pattern. -/
def toUInt64Bits (x : Int) : Nat := (x % 18446744073709551616).toNat

/-- `ThreadTables::getOrCreateStack`'s dedup key
`(uint64_t)(prefix + 1) << 32 | frame`: the shift drops bits above 64 and the
`or` with the 32-bit `frame` is an addition into the cleared low half. -/
def stackKey (prefixIdx : Int) (frame : Nat) : Nat :=
  toUInt64Bits (wrap32 (prefixIdx + 1)) * 4294967296 % 18446744073709551616
    + frame % 4294967296

/-- The stack table slice of `ThreadTables`: rows plus the dedup map
`stackKeyToStack`. -/
structure StackTable where
  rows : List StackEntry
  stackKeyToStack : List (Nat × Int)
deriving DecidableEq, Repr

/-- The empty stack table. -/
def StackTable.empty : StackTable := ⟨[], []⟩

/-- `ThreadTables::getOrCreateStack`. -/
def getOrCreateStack (t : StackTable) (prefixIdx : Int) (frame : Nat) : Int × StackTable :=
  let key := stackKey prefixIdx frame
  match t.stackKeyToStack.lookup key with
  | some idx => (idx, t)
  | none =>
      let idx : Int := t.rows.length
      (idx, ⟨t.rows ++ [⟨prefixIdx, frame⟩], (key, idx) :: t.stackKeyToStack⟩)

/-- Stack tables built by the collectors: starting from the empty table, each
`getOrCreateStack` call passes `prefix = -1` or an index previously returned
on the same table (every previously returned index is `< rows.length`, and
tables only grow). -/
inductive StackReachable : StackTable → Prop
  | init : StackReachable StackTable.empty
  | step (t : StackTable) (p : Int) (f : Nat) :
      StackReachable t → (p = -1 ∨ (0 ≤ p ∧ p < t.rows.length)) →
      StackReachable (getOrCreateStack t p f).2

/-- Invariant: every row's prefix is the sentinel or a strictly smaller row
index, and the dedup map only holds valid row indices. -/
def StackInv (t : StackTable) : Prop :=
  (∀ i (hi : i < t.rows.length),
    (t.rows.get ⟨i, hi⟩).prefixIdx = -1 ∨
      (0 ≤ (t.rows.get ⟨i, hi⟩).prefixIdx ∧ (t.rows.get ⟨i, hi⟩).prefixIdx < i)) ∧
  (∀ k v, (k, v) ∈ t.stackKeyToStack → 0 ≤ v ∧ v < t.rows.length)

theorem lookup_mem_pairs {α β : Type} [BEq α] [LawfulBEq α]
    (l : List (α × β)) (k : α) (v : β) (h : l.lookup k = some v) : (k, v) ∈ l := by
  induction l with
  | nil => simp [List.lookup] at h
  | cons p rest ih =>
      match p with
      | (k', v') =>
          rw [List.lookup] at h
          cases hk : (k == k') with
          | true =>
              rw [hk] at h
              have hkk : k = k' := by simpa using hk
              have hvv : v = v' := by simpa using h.symm
              simp [hkk, hvv]
          | false =>
              rw [hk] at h
              exact List.mem_cons_of_mem _ (ih h)

theorem getOrCreateStack_fst_range (t : StackTable) (p : Int) (f : Nat)
    (hinv : StackInv t) :
    0 ≤ (getOrCreateStack t p f).1 ∧
      (getOrCreateStack t p f).1 < (getOrCreateStack t p f).2.rows.length := by
  cases hm : t.stackKeyToStack.lookup (stackKey p f) with
  | some idx =>
      have := hinv.2 (stackKey p f) idx (lookup_mem_pairs _ _ _ hm)
      simpa [getOrCreateStack, hm] using this
  | none => simp [getOrCreateStack, hm]

theorem getOrCreateStack_inv (t : StackTable) (p : Int) (f : Nat)
    (hinv : StackInv t) (hp : p = -1 ∨ (0 ≤ p ∧ p < t.rows.length)) :
    StackInv (getOrCreateStack t p f).2 := by
  cases hm : t.stackKeyToStack.lookup (stackKey p f) with
  | some idx => simpa [getOrCreateStack, hm] using hinv
  | none =>
      simp only [getOrCreateStack, hm]
      constructor
      · intro i hi
        simp only [List.length_append, List.length_cons, List.length_nil] at hi
        by_cases hlt : i < t.rows.length
        · have hg : (t.rows ++ [⟨p, f⟩] : List StackEntry).get ⟨i, by simpa using hi⟩
              = t.rows.get ⟨i, hlt⟩ := by
            simp [List.getElem_append_left hlt]
          rw [hg]
          exact hinv.1 i hlt
        · have hieq : i = t.rows.length := by omega
          have hg : (t.rows ++ [⟨p, f⟩] : List StackEntry).get ⟨i, by simpa using hi⟩
              = ⟨p, f⟩ := by
            subst hieq
            simp
          rw [hg]
          dsimp only
          rcases hp with h | h
          · exact Or.inl h
          · exact Or.inr (by constructor <;> omega)
      · intro k v hkv
        rcases List.mem_cons.mp hkv with h | h
        · have hv : v = (t.rows.length : Int) := by
            have := congrArg Prod.snd h
            simpa using this
          constructor
          · simp [hv]
          · simp [hv]
        · have := hinv.2 k v h
          simp only [List.length_append, List.length_cons, List.length_nil]
          constructor
          · exact this.1
          · have := this.2
            push_cast
            omega

theorem stackReachable_inv (t : StackTable) (h : StackReachable t) : StackInv t := by
  induction h with
  | init =>
      constructor
      · intro i hi; simp [StackTable.empty] at hi
      · intro k v hkv; simp [StackTable.empty] at hkv
  | step t p f _ hp ih => exact getOrCreateStack_inv t p f ih hp

/-- Following `prefix` references with bounded fuel: a negative reference is
"none" (terminated); otherwise the referenced row's prefix is followed,
consuming one fuel unit per step. -/
def followsToNone (rows : List StackEntry) : Nat → Int → Bool
  | 0, p => decide (p < 0)
  | fuel + 1, p =>
      if p < 0 then true
      else
        match rows[p.toNat]? with
        | none => false
        | some e => followsToNone rows fuel e.prefixIdx

theorem followsToNone_of_inv (rows : List StackEntry)
    (hinv : ∀ i (hi : i < rows.length),
      (rows.get ⟨i, hi⟩).prefixIdx = -1 ∨
        (0 ≤ (rows.get ⟨i, hi⟩).prefixIdx ∧ (rows.get ⟨i, hi⟩).prefixIdx < i)) :
    ∀ i, i < rows.length → ∀ fuel, i + 1 ≤ fuel →
      followsToNone rows fuel (i : Int) = true := by
  intro i
  induction i using Nat.strong_induction_on with
  | _ i ih =>
      intro hi fuel hfuel
      obtain ⟨m, rfl⟩ : ∃ m, fuel = m + 1 := ⟨fuel - 1, by omega⟩
      have hnn : ¬((i : Int) < 0) := by omega
      have hget : rows[((i : Int)).toNat]? = some (rows.get ⟨i, hi⟩) := by
        simp [List.getElem?_eq_getElem hi]
      rw [followsToNone, if_neg hnn, hget]
      show followsToNone rows m (rows.get ⟨i, hi⟩).prefixIdx = true
      rcases hinv i hi with hp | ⟨hp0, hplt⟩
      · rw [hp]
        cases m with
        | zero => simp [followsToNone]
        | succ k => simp [followsToNone]
      · rw [← Int.toNat_of_nonneg hp0]
        exact ih (rows.get ⟨i, hi⟩).prefixIdx.toNat (by omega) (by omega) m (by omega)

/-- C3: every stack table reachable by the collectors has rows whose prefix
is the "none" sentinel or a strictly smaller row index, and following the
prefix chain from any row reaches "none" within `len(rows)` lookups —
prefix chains never cycle. -/
theorem stack_table_acyclic (t : StackTable) (h : StackReachable t) :
    (∀ i (hi : i < t.rows.length),
      (t.rows.get ⟨i, hi⟩).prefixIdx = -1 ∨
        (0 ≤ (t.rows.get ⟨i, hi⟩).prefixIdx ∧ (t.rows.get ⟨i, hi⟩).prefixIdx < i)) ∧
    (∀ i, i < t.rows.length →
      followsToNone t.rows t.rows.length (i : Int) = true) := by
  have hinv := stackReachable_inv t h
  refine ⟨hinv.1, fun i hi => ?_⟩
  exact followsToNone_of_inv t.rows hinv.1 i hi t.rows.length (by omega)

/-- Witness for C3 on a concrete two-row reachable stack table. -/
theorem stack_table_acyclic_witness :
    (∀ i (hi : i < (getOrCreateStack (getOrCreateStack StackTable.empty (-1) 5).2
        (getOrCreateStack StackTable.empty (-1) 5).1 7).2.rows.length),
      ((getOrCreateStack (getOrCreateStack StackTable.empty (-1) 5).2
        (getOrCreateStack StackTable.empty (-1) 5).1 7).2.rows.get ⟨i, hi⟩).prefixIdx = -1 ∨
        (0 ≤ ((getOrCreateStack (getOrCreateStack StackTable.empty (-1) 5).2
          (getOrCreateStack StackTable.empty (-1) 5).1 7).2.rows.get ⟨i, hi⟩).prefixIdx ∧
         ((getOrCreateStack (getOrCreateStack StackTable.empty (-1) 5).2
          (getOrCreateStack StackTable.empty (-1) 5).1 7).2.rows.get ⟨i, hi⟩).prefixIdx < i)) ∧
    (∀ i, i < (getOrCreateStack (getOrCreateStack StackTable.empty (-1) 5).2
        (getOrCreateStack StackTable.empty (-1) 5).1 7).2.rows.length →
      followsToNone (getOrCreateStack (getOrCreateStack StackTable.empty (-1) 5).2
          (getOrCreateStack StackTable.empty (-1) 5).1 7).2.rows
        (getOrCreateStack (getOrCreateStack StackTable.empty (-1) 5).2
          (getOrCreateStack StackTable.empty (-1) 5).1 7).2.rows.length
        (i : Int) = true) :=
  stack_table_acyclic _
    (StackReachable.step _ _ _
      (StackReachable.step _ _ _ StackReachable.init (Or.inl rfl))
      (Or.inr (by constructor <;> decide)))

/-- Signed reinterpretation of a `uint64_t` value as an `int64_t`
(`static_cast<int64_t>(ev.Size())`). -/
def toInt64 (n : Nat) : Int :=
  let m := n % 18446744073709551616
  if m < 9223372036854775808 then (m : Int) else (m : Int) - 18446744073709551616

/-- One memory event of `worker.GetMemNameMap()`'s data, as consumed by
`processAllocations`: `timeFree < 0` means the allocation was never freed
(`freeTime >= 0` is the code's pairing test), and the thread ids are already
decompressed. -/
structure MemEvent where
  timeAlloc : Int
  timeFree : Int
  size : Nat
  ptr : Nat
  csAlloc : Nat
  csFree : Nat
  threadAlloc : Nat
  threadFree : Nat
deriving DecidableEq, Repr

/-- The allocation row pushed for the alloc side of an event (`weight = +size`
at `ns_to_ms(allocTime)`). -/
def allocRow (ev : MemEvent) (stackIdx : Int) : AllocationEntry :=
  ⟨ns_to_ms ev.timeAlloc, toInt64 ev.size, stackIdx, ev.ptr, ev.threadAlloc⟩

/-- The allocation row pushed for the free side of an event (`weight = -size`
at `ns_to_ms(freeTime)`). -/
def freeRow (ev : MemEvent) (stackIdx : Int) : AllocationEntry :=
  ⟨ns_to_ms ev.timeFree, -(toInt64 ev.size), stackIdx, ev.ptr, ev.threadFree⟩

/-- The collection loop of `processAllocations` over the (flattened) events of
all memory-event namespaces.  The `buildStack` lambda resolves a callstack id
through the same frame/stack interning as samples; its results are abstracted
here as the function `bs` of the event and the callstack id, since no claim
constrains the produced stack references. -/
def allocRowsOf (bs : MemEvent → Nat → Int) (evs : List MemEvent) : List AllocationEntry :=
  evs.flatMap fun ev =>
    allocRow ev (bs ev ev.csAlloc) ::
      (if 0 ≤ ev.timeFree then [freeRow ev (bs ev ev.csFree)] else [])

/-- Insertion of a row into a time-sorted list, after every row of
not-greater time: together with `stableSortByTime` this realizes the
`std::stable_sort(..., a.time < b.time)` contract (sorted output, equal
keys in original order). -/
def ordInsertByTime (a : AllocationEntry) : List AllocationEntry → List AllocationEntry
  | [] => [a]
  | b :: l => if a.time ≤ b.time then a :: b :: l else b :: ordInsertByTime a l

/-- The stable sort by `time` applied at the end of `processAllocations`. -/
def stableSortByTime : List AllocationEntry → List AllocationEntry
  | [] => []
  | a :: l => ordInsertByTime a (stableSortByTime l)

/-- `ThreadTables::processAllocations`: collect alloc/free rows, then
stable-sort them by time. -/
def processAllocations (bs : MemEvent → Nat → Int) (evs : List MemEvent) :
    List AllocationEntry :=
  stableSortByTime (allocRowsOf bs evs)

theorem ordInsertByTime_perm (a : AllocationEntry) (l : List AllocationEntry) :
    List.Perm (ordInsertByTime a l) (a :: l) := by
  induction l with
  | nil => rfl
  | cons b l ih =>
      rw [ordInsertByTime]
      by_cases h : a.time ≤ b.time
      · simp [h]
      · simp only [h, if_false]
        exact (ih.cons b).trans (List.Perm.swap a b l)

theorem stableSortByTime_perm (l : List AllocationEntry) :
    List.Perm (stableSortByTime l) l := by
  induction l with
  | nil => rfl
  | cons a l ih => exact (ordInsertByTime_perm a (stableSortByTime l)).trans (ih.cons a)

theorem ordInsertByTime_chain (a : AllocationEntry) (l : List AllocationEntry)
    (hl : List.Chain' (fun x y => x.time ≤ y.time) l) :
    List.Chain' (fun x y => x.time ≤ y.time) (ordInsertByTime a l) := by
  induction l with
  | nil => simp [ordInsertByTime]
  | cons b l ih =>
      rw [ordInsertByTime]
      by_cases h : a.time ≤ b.time
      · simp only [h, if_true]
        exact List.Chain'.cons h hl
      · simp only [h, if_false]
        have hl' := (List.chain'_cons'.mp hl).2
        have hch := ih hl'
        refine List.chain'_cons'.mpr ⟨?_, hch⟩
        intro y hy
        cases l with
        | nil =>
            simp [ordInsertByTime] at hy
            subst hy
            exact le_of_not_le h
        | cons c l' =>
            rw [ordInsertByTime] at hy
            by_cases h2 : a.time ≤ c.time
            · simp only [h2, if_true, List.head?_cons, Option.mem_def, Option.some.injEq] at hy
              subst hy
              exact le_of_not_le h
            · simp only [h2, if_false, List.head?_cons, Option.mem_def, Option.some.injEq] at hy
              subst hy
              exact (List.chain'_cons.mp hl).1

theorem stableSortByTime_chain (l : List AllocationEntry) :
    List.Chain' (fun x y => x.time ≤ y.time) (stableSortByTime l) := by
  induction l with
  | nil => simp [stableSortByTime]
  | cons a l ih => exact ordInsertByTime_chain a (stableSortByTime l) ih

theorem ordInsertByTime_filter (t : Rat) (a : AllocationEntry) (l : List AllocationEntry) :
    (ordInsertByTime a l).filter (fun x => decide (x.time = t))
      = if a.time = t then a :: l.filter (fun x => decide (x.time = t))
        else l.filter (fun x => decide (x.time = t)) := by
  induction l with
  | nil =>
      by_cases ha : a.time = t <;> simp [ordInsertByTime, List.filter, ha]
  | cons b l ih =>
      rw [ordInsertByTime]
      by_cases h : a.time ≤ b.time
      · simp only [h, if_true]
        by_cases ha : a.time = t <;> by_cases hb : b.time = t <;>
          simp [List.filter, ha, hb]
      · simp only [h, if_false]
        by_cases ha : a.time = t
        · have hb : ¬(b.time = t) := by
            have hba : b.time < a.time := lt_of_not_le h
            rw [ha] at hba
            exact ne_of_lt hba
          simp [List.filter, ih, ha, hb]
        · by_cases hb : b.time = t <;> simp [List.filter, ih, ha, hb]

theorem stableSortByTime_filter (t : Rat) (l : List AllocationEntry) :
    (stableSortByTime l).filter (fun x => decide (x.time = t))
      = l.filter (fun x => decide (x.time = t)) := by
  induction l with
  | nil => rfl
  | cons a l ih =>
      rw [stableSortByTime, ordInsertByTime_filter]
      by_cases ha : a.time = t <;> simp [List.filter, ha, ih]

/-- C4: after `processAllocations`, the allocation list is sorted
nondecreasing by time; rows of any fixed time appear exactly in the order in
which they were appended during collection (stability of the sort); and a
paired alloc/free event contributes a row of weight `+size` at the alloc time
and a row of weight `-size` at the free time, both carrying the event's
memory address, and both present in the sorted output. -/
theorem allocations_sorted_stable (bs : MemEvent → Nat → Int)
    (evs : List MemEvent) (ev : MemEvent) (hmem : ev ∈ evs)
    (hfree : 0 ≤ ev.timeFree) :
    List.Chain' (fun x y => x.time ≤ y.time) (processAllocations bs evs) ∧
    (∀ t : Rat, (processAllocations bs evs).filter (fun x => decide (x.time = t))
        = (allocRowsOf bs evs).filter (fun x => decide (x.time = t))) ∧
    allocRow ev (bs ev ev.csAlloc) ∈ processAllocations bs evs ∧
    freeRow ev (bs ev ev.csFree) ∈ processAllocations bs evs ∧
    (allocRow ev (bs ev ev.csAlloc)).time = ns_to_ms ev.timeAlloc ∧
    (allocRow ev (bs ev ev.csAlloc)).weight = toInt64 ev.size ∧
    (freeRow ev (bs ev ev.csFree)).time = ns_to_ms ev.timeFree ∧
    (freeRow ev (bs ev ev.csFree)).weight = -(toInt64 ev.size) ∧
    (allocRow ev (bs ev ev.csAlloc)).memoryAddress = ev.ptr ∧
    (freeRow ev (bs ev ev.csFree)).memoryAddress = ev.ptr := by
  have hperm := stableSortByTime_perm (allocRowsOf bs evs)
  have hrows : allocRow ev (bs ev ev.csAlloc) ∈ allocRowsOf bs evs ∧
      freeRow ev (bs ev ev.csFree) ∈ allocRowsOf bs evs := by
    constructor
    · refine List.mem_flatMap.mpr ⟨ev, hmem, ?_⟩
      simp
    · refine List.mem_flatMap.mpr ⟨ev, hmem, ?_⟩
      simp [hfree]
  refine ⟨stableSortByTime_chain (allocRowsOf bs evs),
    fun t => stableSortByTime_filter t (allocRowsOf bs evs),
    hperm.mem_iff.mpr hrows.1, hperm.mem_iff.mpr hrows.2,
    rfl, rfl, rfl, rfl, rfl, rfl⟩

/-- Witness for C4 on a concrete paired alloc/free event. -/
theorem allocations_sorted_stable_witness :
    List.Chain' (fun x y => x.time ≤ y.time)
      (processAllocations (fun _ _ => -1)
        [⟨1000000, 5000000, 64, 4096, 1, 2, 5, 5⟩]) ∧
    (∀ t : Rat, (processAllocations (fun _ _ => -1)
          [⟨1000000, 5000000, 64, 4096, 1, 2, 5, 5⟩]).filter
            (fun x => decide (x.time = t))
        = (allocRowsOf (fun _ _ => -1)
            [⟨1000000, 5000000, 64, 4096, 1, 2, 5, 5⟩]).filter
            (fun x => decide (x.time = t))) ∧
    allocRow ⟨1000000, 5000000, 64, 4096, 1, 2, 5, 5⟩ ((fun _ _ => (-1 : Int)) (⟨1000000, 5000000, 64, 4096, 1, 2, 5, 5⟩ : MemEvent) 1)
      ∈ processAllocations (fun _ _ => -1) [⟨1000000, 5000000, 64, 4096, 1, 2, 5, 5⟩] ∧
    freeRow ⟨1000000, 5000000, 64, 4096, 1, 2, 5, 5⟩ ((fun _ _ => (-1 : Int)) (⟨1000000, 5000000, 64, 4096, 1, 2, 5, 5⟩ : MemEvent) 2)
      ∈ processAllocations (fun _ _ => -1) [⟨1000000, 5000000, 64, 4096, 1, 2, 5, 5⟩] ∧
    (allocRow ⟨1000000, 5000000, 64, 4096, 1, 2, 5, 5⟩ ((fun _ _ => (-1 : Int)) (⟨1000000, 5000000, 64, 4096, 1, 2, 5, 5⟩ : MemEvent) 1)).time = ns_to_ms 1000000 ∧
    (allocRow ⟨1000000, 5000000, 64, 4096, 1, 2, 5, 5⟩ ((fun _ _ => (-1 : Int)) (⟨1000000, 5000000, 64, 4096, 1, 2, 5, 5⟩ : MemEvent) 1)).weight = toInt64 64 ∧
    (freeRow ⟨1000000, 5000000, 64, 4096, 1, 2, 5, 5⟩ ((fun _ _ => (-1 : Int)) (⟨1000000, 5000000, 64, 4096, 1, 2, 5, 5⟩ : MemEvent) 2)).time = ns_to_ms 5000000 ∧
    (freeRow ⟨1000000, 5000000, 64, 4096, 1, 2, 5, 5⟩ ((fun _ _ => (-1 : Int)) (⟨1000000, 5000000, 64, 4096, 1, 2, 5, 5⟩ : MemEvent) 2)).weight = -(toInt64 64) ∧
    (allocRow ⟨1000000, 5000000, 64, 4096, 1, 2, 5, 5⟩ ((fun _ _ => (-1 : Int)) (⟨1000000, 5000000, 64, 4096, 1, 2, 5, 5⟩ : MemEvent) 1)).memoryAddress = 4096 ∧
    (freeRow ⟨1000000, 5000000, 64, 4096, 1, 2, 5, 5⟩ ((fun _ _ => (-1 : Int)) (⟨1000000, 5000000, 64, 4096, 1, 2, 5, 5⟩ : MemEvent) 2)).memoryAddress = 4096 :=
  allocations_sorted_stable (fun _ _ => -1)
    [⟨1000000, 5000000, 64, 4096, 1, 2, 5, 5⟩]
    ⟨1000000, 5000000, 64, 4096, 1, 2, 5, 5⟩ (by simp) (by norm_num)

/-- `2^64`, the modulus of `uint64_t` arithmetic. -/
def U64MOD : Nat := 18446744073709551616

/-- `LibTable`'s `LibEntry` (`lib_table.hpp`); the C++ fields `start`/`end`
are named `startAddr`/`endAddr` (`end` is a Lean keyword). -/
structure LibEntry where
  name : String
  startAddr : Nat
  endAddr : Nat
deriving DecidableEq, Repr

/-- `lib_table.hpp`: entry list plus the name dedup map. -/
structure LibTable where
  libs : List LibEntry
  map : List (String × Nat)
deriving DecidableEq, Repr

/-- The empty library table. -/
def LibTable.empty : LibTable := ⟨[], []⟩

/-- In-place update of one list element (`m_libs[it->second]` mutation). -/
def modifyAt {α : Type} (l : List α) (i : Nat) (f : α → α) : List α :=
  match l, i with
  | [], _ => []
  | x :: rest, 0 => f x :: rest
  | x :: rest, i + 1 => x :: modifyAt rest i f

theorem modifyAt_length {α : Type} (l : List α) (i : Nat) (f : α → α) :
    (modifyAt l i f).length = l.length := by
  induction l generalizing i with
  | nil => rfl
  | cons x rest ih =>
      cases i with
      | zero => rfl
      | succ j => simp [modifyAt, ih]

theorem getElem?_modifyAt {α : Type} (l : List α) (i : Nat) (f : α → α) (j : Nat) :
    (modifyAt l i f)[j]? = if i = j then (l[j]?).map f else l[j]? := by
  induction l generalizing i j with
  | nil => simp [modifyAt]
  | cons x rest ih =>
      cases i with
      | zero =>
          cases j with
          | zero => simp [modifyAt]
          | succ j' => simp [modifyAt]
      | succ i' =>
          cases j with
          | zero => simp [modifyAt]
          | succ j' => simpa [modifyAt] using ih i' j'

/-- The range-widening update of `LibTable::intern` applied on an existing
entry when `addr != 0`. -/
def widenLib (addr size : Nat) (lib : LibEntry) : LibEntry :=
  let e := (addr + size) % U64MOD
  ⟨lib.name,
   if lib.startAddr = 0 ∨ addr < lib.startAddr then addr else lib.startAddr,
   if e > lib.endAddr then e else lib.endAddr⟩

/-- `LibTable::intern(name, addr, size)`. -/
def libIntern (lt : LibTable) (name : Option String) (addr size : Nat) : Int × LibTable :=
  if isNonEmptyC name = false then (-1, lt)
  else
    let n := name.getD ""
    match lt.map.lookup n with
    | some idx =>
        if addr ≠ 0 then
          ((idx : Int), { lt with libs := modifyAt lt.libs idx (widenLib addr size) })
        else ((idx : Int), lt)
    | none =>
        let idx := lt.libs.length
        ((idx : Int), ⟨lt.libs ++ [⟨n, addr, (addr + size) % U64MOD⟩], (n, idx) :: lt.map⟩)

/-- An entry of the given image name whose `[start, end)` range contains
`addr`, with the extra inductive strength `start ≠ 0` (the widening rule can
raise a zero `start`, never a nonzero one). -/
def goodLibFor (image : String) (addr : Nat) (e : LibEntry) : Prop :=
  e.name = image ∧ e.startAddr ≠ 0 ∧ e.startAddr ≤ addr ∧ addr < e.endAddr

/-- The library table holds an entry witnessing `[start, end)` containment of
`addr` under `image`'s name. -/
def hasGoodLib (lt : LibTable) (image : String) (addr : Nat) : Prop :=
  ∃ (i : Nat) (e : LibEntry), lt.libs[i]? = some e ∧ goodLibFor image addr e

/-- Executable `[start, end)` containment of a symbol address in the library
entry of the given name. -/
def libContainsB (lt : LibTable) (image : String) (addr : Nat) : Bool :=
  lt.libs.any fun l => l.name == image && decide (l.startAddr ≤ addr) && decide (addr < l.endAddr)

theorem hasGoodLib_containsB (lt : LibTable) (image : String) (addr : Nat)
    (h : hasGoodLib lt image addr) : libContainsB lt image addr = true := by
  obtain ⟨i, e, hie, hname, _, hle, hlt⟩ := h
  refine List.any_eq_true.mpr ⟨e, ?_, ?_⟩
  · exact List.getElem?_mem hie
  · simp [hname, hle, hlt]

theorem widenLib_good (image : String) (a addr size : Nat) (e : LibEntry)
    (haddr : addr ≠ 0) (hg : goodLibFor image a e) :
    goodLibFor image a (widenLib addr size e) := by
  obtain ⟨hname, hs0, hsle, halt⟩ := hg
  unfold widenLib goodLibFor
  dsimp only
  refine ⟨hname, ?_, ?_, ?_⟩
  · by_cases h1 : e.startAddr = 0 ∨ addr < e.startAddr
    · rw [if_pos h1]; exact haddr
    · rw [if_neg h1]; exact hs0
  · by_cases h1 : e.startAddr = 0 ∨ addr < e.startAddr
    · have h1' : addr < e.startAddr := by
        rcases h1 with h | h
        · exact absurd h hs0
        · exact h
      rw [if_pos h1]
      omega
    · rw [if_neg h1]
      exact hsle
  · by_cases h2 : (addr + size) % U64MOD > e.endAddr
    · rw [if_pos h2]
      omega
    · rw [if_neg h2]
      exact halt

theorem libIntern_state_skip (lt : LibTable) (name : Option String) (addr size : Nat)
    (hne : isNonEmptyC name = false) : (libIntern lt name addr size).2 = lt := by
  simp [libIntern, hne]

theorem libIntern_state_found (lt : LibTable) (name : Option String) (addr size idx : Nat)
    (hne : isNonEmptyC name = true) (hm : lt.map.lookup (name.getD "") = some idx)
    (haddr : addr ≠ 0) :
    (libIntern lt name addr size).2
      = { lt with libs := modifyAt lt.libs idx (widenLib addr size) } := by
  simp [libIntern, hne, hm, haddr]

theorem libIntern_state_found0 (lt : LibTable) (name : Option String) (size idx : Nat)
    (hne : isNonEmptyC name = true) (hm : lt.map.lookup (name.getD "") = some idx) :
    (libIntern lt name 0 size).2 = lt := by
  simp [libIntern, hne, hm]

theorem libIntern_state_new (lt : LibTable) (name : Option String) (addr size : Nat)
    (hne : isNonEmptyC name = true) (hm : lt.map.lookup (name.getD "") = none) :
    (libIntern lt name addr size).2
      = ⟨lt.libs ++ [⟨name.getD "", addr, (addr + size) % U64MOD⟩],
         (name.getD "", lt.libs.length) :: lt.map⟩ := by
  simp [libIntern, hne, hm]

theorem libIntern_preserves_good (lt : LibTable) (name : Option String)
    (addr size : Nat) (image : String) (a : Nat)
    (h : hasGoodLib lt image a) :
    hasGoodLib (libIntern lt name addr size).2 image a := by
  obtain ⟨i, e, hie, hg⟩ := h
  cases hne : isNonEmptyC name with
  | false => rw [libIntern_state_skip lt name addr size hne]; exact ⟨i, e, hie, hg⟩
  | true =>
      cases hm : lt.map.lookup (name.getD "") with
      | some idx =>
          by_cases haddr : addr = 0
          · subst haddr
            rw [libIntern_state_found0 lt name size idx hne hm]
            exact ⟨i, e, hie, hg⟩
          · rw [libIntern_state_found lt name addr size idx hne hm haddr]
            by_cases hidx : idx = i
            · refine ⟨i, widenLib addr size e, ?_, widenLib_good image a addr size e haddr hg⟩
              show (modifyAt lt.libs idx (widenLib addr size))[i]? = _
              rw [getElem?_modifyAt, if_pos hidx, hie]
              rfl
            · refine ⟨i, e, ?_, hg⟩
              show (modifyAt lt.libs idx (widenLib addr size))[i]? = _
              rw [getElem?_modifyAt, if_neg hidx, hie]
      | none =>
          rw [libIntern_state_new lt name addr size hne hm]
          refine ⟨i, e, ?_, hg⟩
          show (lt.libs ++ [⟨name.getD "", addr, (addr + size) % U64MOD⟩] :
            List LibEntry)[i]? = some e
          have hilt : i < lt.libs.length := (List.getElem?_eq_some_iff.mp hie).1
          rw [List.getElem?_append_left hilt]
          exact hie

/-- Dedup-map consistency of the library table: every mapped index holds an
entry of the mapped name. -/
def LibTableWF (lt : LibTable) : Prop :=
  ∀ n idx, lt.map.lookup n = some idx →
    ∃ e, lt.libs[idx]? = some e ∧ e.name = n

theorem libIntern_establishes_good (lt : LibTable) (image : String) (addr size : Nat)
    (hwf : LibTableWF lt) (himg : image ≠ "") (haddr : addr ≠ 0) (hsize : 0 < size)
    (hov : addr + size < U64MOD) :
    hasGoodLib (libIntern lt (some image) addr size).2 image addr := by
  have hne : isNonEmptyC (some image) = true := by simp [isNonEmptyC, himg]
  have hkey : (some image : Option String).getD "" = image := rfl
  have hmod : (addr + size) % U64MOD = addr + size := Nat.mod_eq_of_lt hov
  cases hm : lt.map.lookup image with
  | some idx =>
      rw [libIntern_state_found lt (some image) addr size idx hne (by rwa [hkey]) haddr]
      obtain ⟨e, hie, hename⟩ := hwf image idx hm
      refine ⟨idx, widenLib addr size e, ?_, ?_⟩
      · show (modifyAt lt.libs idx (widenLib addr size))[idx]? = _
        rw [getElem?_modifyAt, if_pos rfl, hie]
        rfl
      · unfold widenLib goodLibFor
        dsimp only
        refine ⟨hename, ?_, ?_, ?_⟩
        · by_cases h1 : e.startAddr = 0 ∨ addr < e.startAddr
          · rw [if_pos h1]; exact haddr
          · rw [if_neg h1]
            intro h0
            exact h1 (Or.inl h0)
        · by_cases h1 : e.startAddr = 0 ∨ addr < e.startAddr
          · rw [if_pos h1]
          · rw [if_neg h1]
            omega
        · rw [hmod]
          by_cases h2 : addr + size > e.endAddr
          · rw [if_pos h2]; omega
          · rw [if_neg h2]; omega
  | none =>
      rw [libIntern_state_new lt (some image) addr size hne (by rwa [hkey])]
      refine ⟨lt.libs.length, ⟨image, addr, (addr + size) % U64MOD⟩, ?_, ?_⟩
      · show (lt.libs ++ [(⟨image, addr, (addr + size) % U64MOD⟩ : LibEntry)])[
          lt.libs.length]? = _
        rw [List.getElem?_concat_length]
      · exact ⟨rfl, haddr, le_refl addr, by
          show addr < (addr + size) % U64MOD
          rw [hmod]
          omega⟩

/-- A later `LibTable::intern` call: `(name, addr, size)`. -/
def applyLibOps (lt : LibTable) (ops : List (Option String × Nat × Nat)) : LibTable :=
  ops.foldl (fun acc op => (libIntern acc op.1 op.2.1 op.2.2).2) lt

theorem applyLibOps_preserves_good (ops : List (Option String × Nat × Nat))
    (lt : LibTable) (image : String) (a : Nat) (h : hasGoodLib lt image a) :
    hasGoodLib (applyLibOps lt ops) image a := by
  induction ops generalizing lt with
  | nil => exact h
  | cons op rest ih =>
      exact ih (libIntern lt op.1 op.2.1 op.2.2).2
        (libIntern_preserves_good lt op.1 op.2.1 op.2.2 image a h)

/-- The slice of the per-thread `ThreadTables` state read and written by
`getOrCreateNativeSymbol` and `getOrCreateResource`: the native-symbol and
resource rows and their dedup maps. -/
structure SymTables where
  nativeSymbols : List NativeSymbolEntry
  resources : List ResourceEntry
  symAddrToNativeSymbol : List (Nat × Nat)
  libNameToResource : List (String × Nat)
deriving DecidableEq, Repr

/-- Fresh per-thread tables. -/
def SymTables.empty : SymTables := ⟨[], [], [], []⟩

/-- Result of `getOrCreateResource`/`getOrCreateNativeSymbol`: the returned
index plus the updated string table, library table and thread tables. -/
structure SymResult where
  idx : Nat
  st : StringTable
  lt : LibTable
  tt : SymTables
deriving DecidableEq, Repr

/-- `ThreadTables::getOrCreateResource`: dedup on the (empty-defaulted)
library name; on a miss, append `{lt.intern(libName), st.intern(libName)}`
(the braced initializer evaluates the `lt` intern before the `st` intern). -/
def getOrCreateResource (st : StringTable) (lt : LibTable) (tt : SymTables)
    (libName : Option String) : SymResult :=
  let key := libName.getD ""
  match tt.libNameToResource.lookup key with
  | some idx => ⟨idx, st, lt, tt⟩
  | none =>
      let idx := tt.resources.length
      let r1 := libIntern lt libName 0 0
      let r2 := internCStr st libName
      ⟨idx, r2.2, r1.2,
        { tt with resources := tt.resources ++ [⟨r1.1, r2.1⟩],
                  libNameToResource := (key, idx) :: tt.libNameToResource }⟩

/-- `ThreadTables::getOrCreateNativeSymbol`.  On a hit with a non-empty image
name, the library range is still widened via `lt.intern(imageName, symAddr,
size)`.  On a miss, the new row's `libIdx` is the resource index when the
image name is non-empty (after `lt.intern(imageName, symAddr, size)`), else
`-1`; finally `{libIdx, symAddr, st.intern(name), size}` is appended. -/
def getOrCreateNativeSymbol (st : StringTable) (lt : LibTable) (tt : SymTables)
    (symAddr : Nat) (name imageName : Option String) (size : Nat) : SymResult :=
  match tt.symAddrToNativeSymbol.lookup symAddr with
  | some idx =>
      if isNonEmptyC imageName then ⟨idx, st, (libIntern lt imageName symAddr size).2, tt⟩
      else ⟨idx, st, lt, tt⟩
  | none =>
      if isNonEmptyC imageName then
        let ltA := (libIntern lt imageName symAddr size).2
        let r := getOrCreateResource st ltA tt imageName
        let idx := r.tt.nativeSymbols.length
        let nm := internCStr r.st name
        ⟨idx, nm.2, r.lt,
          { r.tt with
              nativeSymbols := r.tt.nativeSymbols ++ [⟨(r.idx : Int), symAddr, nm.1, size⟩],
              symAddrToNativeSymbol := (symAddr, idx) :: r.tt.symAddrToNativeSymbol }⟩
      else
        let idx := tt.nativeSymbols.length
        let nm := internCStr st name
        ⟨idx, nm.2, lt,
          { tt with
              nativeSymbols := tt.nativeSymbols ++ [⟨-1, symAddr, nm.1, size⟩],
              symAddrToNativeSymbol := (symAddr, idx) :: tt.symAddrToNativeSymbol }⟩

theorem getOrCreateResource_preserves_good (st : StringTable) (lt : LibTable)
    (tt : SymTables) (libName : Option String) (image : String) (a : Nat)
    (h : hasGoodLib lt image a) :
    hasGoodLib (getOrCreateResource st lt tt libName).lt image a := by
  unfold getOrCreateResource
  cases hm : tt.libNameToResource.lookup (libName.getD "") with
  | some idx =>
      simp only [hm]
      exact h
  | none =>
      simp only [hm]
      exact libIntern_preserves_good lt libName 0 0 image a h

/-- C6 (amended): a native-symbol entry created through
`getOrCreateNativeSymbol` with a non-empty image name, a nonzero symbol
address, a nonzero symbol size and non-overflowing `addr + size` yields a
library-table entry for that image whose half-open `[start, end)` range
contains the symbol address, and the containment persists under any later
sequence of `LibTable::intern` calls.  (With `size = 0`, or with address 0,
the emitted range can exclude the address; see the counterexample.) -/
theorem nativeSymbol_in_lib_range (st : StringTable) (lt : LibTable) (tt : SymTables)
    (hwf : LibTableWF lt) (symAddr size : Nat) (image : String) (name : Option String)
    (himg : image ≠ "") (haddr : symAddr ≠ 0) (hsize : 0 < size)
    (hov : symAddr + size < U64MOD) (ops : List (Option String × Nat × Nat)) :
    libContainsB
      (applyLibOps
        (getOrCreateNativeSymbol st lt tt symAddr name (some image) size).lt ops)
      image symAddr = true := by
  have hne : isNonEmptyC (some image) = true := by simp [isNonEmptyC, himg]
  have hEst := libIntern_establishes_good lt image symAddr size hwf himg haddr hsize hov
  have hgood : hasGoodLib
      (getOrCreateNativeSymbol st lt tt symAddr name (some image) size).lt image symAddr := by
    unfold getOrCreateNativeSymbol
    cases hm : tt.symAddrToNativeSymbol.lookup symAddr with
    | some idx =>
        simp only [hm, hne, if_true]
        exact hEst
    | none =>
        simp only [hm, hne, if_true]
        exact getOrCreateResource_preserves_good st _ tt (some image) image symAddr hEst
  exact hasGoodLib_containsB _ _ _ (applyLibOps_preserves_good ops _ image symAddr hgood)

/-- Witness for C6 at concrete empty tables and one later intern call. -/
theorem nativeSymbol_in_lib_range_witness :
    libContainsB
      (applyLibOps
        (getOrCreateNativeSymbol StringTable.empty LibTable.empty SymTables.empty
          4096 (some "f") (some "libc.so") 256).lt [(some "libd.so", 8192, 16)])
      "libc.so" 4096 = true :=
  nativeSymbol_in_lib_range StringTable.empty LibTable.empty SymTables.empty
    (by intro n idx h; simp [LibTable.empty, List.lookup] at h)
    4096 256 "libc.so" (some "f") (by decide) (by decide) (by decide) (by decide)
    [(some "libd.so", 8192, 16)]

/-- Counterexample to C6 as stated: a native symbol created with a non-empty
image name but symbol size 0 produces the empty library range
`[4096, 4096)`, which does not contain the symbol's address 4096. -/
theorem nativeSymbol_in_lib_range_counterexample :
    libContainsB
      (getOrCreateNativeSymbol StringTable.empty LibTable.empty SymTables.empty
        4096 (some "f") (some "libc.so") 0).lt "libc.so" 4096 = false := by
  decide

/-- The scalar fields of the `profile["meta"]` object built in `main`
(`fxexport.cpp`); the fixed `categories`, `markerSchema`, `pausedRanges` and
`sampleUnits` sub-objects carry no data from the trace and are omitted. -/
structure MetaJson where
  debug : Bool
  interval : Rat
  platform : String
  preprocessedProfileVersion : Nat
  processType : Nat
  product : String
  startTime : Int
  startTimeAsClockMonotonicNanosecondsSinceBoot : Int
  symbolicated : Bool
  version : Nat
  usesOnlyOneStackType : Bool
  sourceCodeIsNotOnSearchfox : Bool
deriving DecidableEq, Repr

/-- `main`'s meta block: in particular
`{"startTime", worker.GetCaptureTime() * 1000}`. -/
def buildMeta (captureTime : Int) (samplingPeriod : Int) (captureProgram : String)
    (hostInfo : String) : MetaJson where
  debug := false
  interval := ns_to_ms samplingPeriod
  platform := hostInfo
  preprocessedProfileVersion := 57
  processType := 0
  product := if captureProgram = "" then "Tracy" else captureProgram
  startTime := captureTime * 1000
  startTimeAsClockMonotonicNanosecondsSinceBoot := 0
  symbolicated := true
  version := 28
  usesOnlyOneStackType := true
  sourceCodeIsNotOnSearchfox := true

/-- C8 (amended): the emitted `meta.startTime` equals the trace's capture
time *multiplied* by 1000, for every trace (the source writes
`worker.GetCaptureTime() * 1000`); it is not the capture time divided
by 1000. -/
theorem meta_startTime_eq (captureTime samplingPeriod : Int) (captureProgram hostInfo : String) :
    (buildMeta captureTime samplingPeriod captureProgram hostInfo).startTime
      = captureTime * 1000 ∧
    (buildMeta captureTime samplingPeriod captureProgram hostInfo).version = 28 ∧
    (buildMeta captureTime samplingPeriod captureProgram hostInfo).preprocessedProfileVersion
      = 57 := by
  exact ⟨rfl, rfl, rfl⟩

/-- Counterexample to C8 as stated: at capture time 2000 the emitted
`startTime` is `2000 * 1000 = 2000000`, not `2000 / 1000 = 2`. -/
theorem meta_startTime_counterexample :
    (buildMeta 2000 1000 "prog" "host").startTime ≠ 2000 / 1000 ∧
    (buildMeta 2000 1000 "prog" "host").startTime = 2000000 := by
  exact ⟨by decide, rfl⟩

/-- `pid` resolution of the thread emission loop in `main`:
`pid_ != 0 ? pid_ : worker.GetPid()`. -/
def resolvePid (pidFromTid : Nat) (capturePid : Nat) : Nat :=
  if pidFromTid ≠ 0 then pidFromTid else capturePid

/-- The per-thread scalar fields attached by `main`'s thread emission loop
(`fxexport.cpp`), after the `minTime == INT64_MAX` fix-up. -/
structure ThreadJsonMeta where
  name : String
  isMainThread : Bool
  processType : String
  processName : String
  processStartupTime : Rat
  registerTime : Rat
  unregisterTime : Rat
  pid : String
  tid : Nat
deriving DecidableEq, Repr

/-- The thread emission loop of `main`: display name defaulting, pid
resolution, `isMainThread = (pid == td->id)`, and register/unregister times
from the collected min/max (with the `INT64_MAX` sentinel zeroed). -/
def buildThreadMeta (threadName : Option String) (pidFromTid capturePid tid : Nat)
    (captureProgram : String) (minTime maxTime : Int) : ThreadJsonMeta :=
  let pid := resolvePid pidFromTid capturePid
  { name := threadName.getD "Thread"
    isMainThread := pid == tid
    processType := "default"
    processName := if captureProgram = "" then "Tracy" else captureProgram
    processStartupTime := 0
    registerTime := ns_to_ms (if minTime = int64Max then 0 else minTime)
    unregisterTime := ns_to_ms maxTime
    pid := toString pid
    tid := tid }

/-- C9 (amended): a thread is emitted with `isMainThread = true` exactly when
its resolved pid (pid-for-tid if nonzero, else the capture pid) equals its
tid; the reader-provided thread name is not consulted. -/
theorem isMainThread_iff (threadName : Option String) (pidFromTid capturePid tid : Nat)
    (captureProgram : String) (minTime maxTime : Int) :
    (buildThreadMeta threadName pidFromTid capturePid tid captureProgram
        minTime maxTime).isMainThread = true
      ↔ resolvePid pidFromTid capturePid = tid := by
  simp [buildThreadMeta]

/-- Counterexample to C9 as stated: a thread named "Main thread" with
resolved pid 5 and tid 7 is emitted with `isMainThread = false`, though the
claim's name disjunct holds. -/
theorem isMainThread_counterexample :
    ¬(((buildThreadMeta (some "Main thread") 5 1 7 "p" 0 0).isMainThread = true)
        ↔ ((some "Main thread" : Option String) = some "Main thread"
            ∨ resolvePid 5 1 = 7)) := by
  decide

/-- The `ThreadTables` aggregate (`thread_tables.hpp`): table rows plus the
running `minTime`/`maxTime` (initialized to `INT64_MAX` / `0`).  The C++
field `stacks` is named `stackRows` here (`stacks` collides with a Mathlib
token); the dedup maps are carried separately by the functions that use
them. -/
structure ThreadTables where
  frames : List FrameEntry
  funcs : List FuncEntry
  nativeSymbols : List NativeSymbolEntry
  resources : List ResourceEntry
  stackRows : List StackEntry
  samples : List SampleEntry
  allocations : List AllocationEntry
  markers : List MarkerEntry
  minTime : Int
  maxTime : Int
deriving DecidableEq, Repr

/-- A freshly constructed `ThreadTables` (all tables empty,
`minTime = INT64_MAX`, `maxTime = 0`). -/
def ThreadTables.init : ThreadTables := ⟨[], [], [], [], [], [], [], [], int64Max, 0⟩

/-- Output object of `ThreadTables::threadToJson`. -/
structure ThreadJson where
  frameTable : FrameTableJson
  funcTable : FuncTableJson
  markers : MarkersJson
  nativeSymbols : NativeSymbolsJson
  registerTime : Rat
  resourceTable : ResourceTableJson
  samples : SamplesJson
  stackTable : StackTableJson
  unregisterTime : Rat

/-- `ThreadTables::threadToJson`:
`registerTime = ns_to_ms(minTime == INT64_MAX ? 0 : minTime)`,
`unregisterTime = ns_to_ms(maxTime)`. -/
def threadToJson (tt : ThreadTables) : ThreadJson where
  frameTable := frameTableToJson tt.frames
  funcTable := funcTableToJson tt.funcs
  markers := markersToJson tt.markers
  nativeSymbols := nativeSymbolsToJson tt.nativeSymbols
  registerTime := ns_to_ms (if tt.minTime = int64Max then 0 else tt.minTime)
  resourceTable := resourceTableToJson tt.resources
  samples := samplesToJson tt.samples
  stackTable := stackTableToJson tt.stackRows
  unregisterTime := ns_to_ms tt.maxTime

/-- The reader-provided data of one zone, as read by `collectZone`:
`IsEndValid`, the resolved zone name, the optional `Extra` text and color
(`color = 0` meaning "unset"), start/end times, and the source location's
file / function / line. -/
structure ZoneInfo where
  isEndValid : Bool
  name : String
  text : Option String
  color : Nat
  startNs : Int
  endNs : Int
  file : String
  function : String
  line : Nat
deriving DecidableEq, Repr

/-- A zone with its (possibly empty) child list; `none` children model the
null entries of the pointer-flavoured zone vectors, which `collectZones`
skips. -/
inductive Zone where
  | mk (info : ZoneInfo) (children : List (Option Zone))

/-- The reader data of a zone. -/
def Zone.info : Zone → ZoneInfo
  | .mk i _ => i

/-- The children of a zone. -/
def Zone.children : Zone → List (Option Zone)
  | .mk _ cs => cs

/-- The per-thread state threaded through `collectZone`: the shared string
table, the running min/max times and the marker rows. -/
structure ZoneCollectState where
  st : StringTable
  minTime : Int
  maxTime : Int
  markers : List MarkerEntry
deriving DecidableEq, Repr

mutual

/-- `ThreadTables::collectZone`: skip zones without a valid end; otherwise
update min/max from the zone's start/end, intern the marker-data strings in
source order (name, text, color, file+line, function, then the `TracyZone`
marker name), push the interval marker, and recurse into the children. -/
def collectZone (acc : ZoneCollectState) (category : Nat) (z : Zone) : ZoneCollectState :=
  match z with
  | .mk info children =>
      if info.isEndValid = false then acc
      else
        let mn := min acc.minTime info.startNs
        let mx := max acc.maxTime info.endNs
        let r1 := internStr acc.st info.name
        let r2 : Option Nat × StringTable :=
          match info.text with
          | some t =>
              let r := internStr r1.2 t
              (some r.1, r.2)
          | none => (none, r1.2)
        let colorOpt := if info.color ≠ 0 then toGraphColor info.color else none
        let r3 : (Option Nat × Option Nat) × StringTable :=
          if info.file ≠ "" then
            let r := internStr r2.2 info.file
            ((some r.1, some info.line), r.2)
          else ((none, none), r2.2)
        let r4 : Option Nat × StringTable :=
          if info.function ≠ "" then
            let r := internStr r3.2 info.function
            (some r.1, r.2)
          else (none, r3.2)
        let r5 := internStr r4.2 "TracyZone"
        let acc1 : ZoneCollectState :=
          ⟨r5.2, mn, mx,
           acc.markers ++ [⟨"TracyZone", category, r5.1, ns_to_ms info.startNs,
             ns_to_ms info.endNs, .interval,
             .zone ⟨r1.1, r2.1, colorOpt, r3.1.1, r3.1.2, r4.1⟩⟩]⟩
        collectZonesList acc1 category children
termination_by sizeOf z

/-- `ThreadTables::collectZones` over either vector flavour: null entries are
skipped, the rest are collected in order. -/
def collectZonesList (acc : ZoneCollectState) (category : Nat) (zs : List (Option Zone)) :
    ZoneCollectState :=
  match zs with
  | [] => acc
  | none :: rest => collectZonesList acc category rest
  | some z :: rest => collectZonesList (collectZone acc category z) category rest
termination_by sizeOf zs

end

/-- `tracy::LockEvent::Type` as consumed by `processLocks`. -/
inductive LockEventType where
  | wait
  | waitShared
  | obtain
  | obtainShared
  | release
  | releaseShared
deriving DecidableEq, Repr

/-- One lock-timeline event: time, type and the per-lock thread bit. -/
structure LockEvent where
  time : Int
  type : LockEventType
  thread : Nat
deriving DecidableEq, Repr

/-- The state of `processLocks`' walk over one lock's timeline: the string
table, the single `waitStart` register (`-1` = cleared), the running min/max
and the marker rows. -/
structure LockWalkState where
  st : StringTable
  waitStart : Int
  minTime : Int
  maxTime : Int
  markers : List MarkerEntry
deriving DecidableEq, Repr

/-- One iteration of `processLocks`' timeline loop: events of other threads
are skipped; events of this thread update min/max unconditionally, then
`Wait`/`WaitShared` set `waitStart`, `Obtain`/`ObtainShared` emit a marker
when `waitStart ≥ 0` and clear it, and `Release`/`ReleaseShared` are
no-ops. -/
def lockWalkStep (category lockId : Nat) (lockName : String) (threadBit : Nat)
    (s : LockWalkState) (ev : LockEvent) : LockWalkState :=
  if ev.thread ≠ threadBit then s
  else
    let mn := min s.minTime ev.time
    let mx := max s.maxTime ev.time
    match ev.type with
    | .wait => { s with minTime := mn, maxTime := mx, waitStart := ev.time }
    | .waitShared => { s with minTime := mn, maxTime := mx, waitStart := ev.time }
    | .obtain =>
        if 0 ≤ s.waitStart then
          let r1 := internStr s.st lockName
          let r2 := internStr r1.2 "TracyLock"
          { st := r2.2, waitStart := -1, minTime := mn, maxTime := mx,
            markers := s.markers ++ [⟨"TracyLock", category, r2.1,
              ns_to_ms s.waitStart, ns_to_ms ev.time, .interval,
              .lock r1.1 lockId "wait"⟩] }
        else { s with minTime := mn, maxTime := mx }
    | .obtainShared =>
        if 0 ≤ s.waitStart then
          let r1 := internStr s.st lockName
          let r2 := internStr r1.2 "TracyLock"
          { st := r2.2, waitStart := -1, minTime := mn, maxTime := mx,
            markers := s.markers ++ [⟨"TracyLock", category, r2.1,
              ns_to_ms s.waitStart, ns_to_ms ev.time, .interval,
              .lock r1.1 lockId "wait_shared"⟩] }
        else { s with minTime := mn, maxTime := mx }
    | .release => { s with minTime := mn, maxTime := mx }
    | .releaseShared => { s with minTime := mn, maxTime := mx }

/-- The walk of one lock's timeline (`waitStart` starts at `-1`). -/
def processLockTimeline (category lockId : Nat) (lockName : String) (threadBit : Nat)
    (s0 : LockWalkState) (timeline : List LockEvent) : LockWalkState :=
  timeline.foldl (lockWalkStep category lockId lockName threadBit) s0

/-- C10 (amended): a thread on which no collector observed any event keeps
the sentinel state `minTime = INT64_MAX`, `maxTime = 0` and is serialized
with `registerTime = 0` and `unregisterTime = 0` — never a sentinel-derived
value — both by `ThreadTables::threadToJson` and by `main`'s thread
emission; a zone whose end is invalid leaves the collector state (min/max,
markers, string table) entirely unchanged; but in the lock collector a
matching `Release`/`ReleaseShared` timeline event updates min/max while
emitting no marker. -/
theorem empty_thread_times_zero (acc : ZoneCollectState) (category : Nat) (z : Zone)
    (hz : z.info.isEndValid = false)
    (threadName : Option String) (pidFromTid capturePid tid : Nat) (prog : String)
    (lcat lockId : Nat) (lockName : String) (threadBit : Nat) (s : LockWalkState)
    (ev : LockEvent) (hevt : ev.thread = threadBit) (hrel : ev.type = .release) :
    (threadToJson ThreadTables.init).registerTime = 0 ∧
    (threadToJson ThreadTables.init).unregisterTime = 0 ∧
    (buildThreadMeta threadName pidFromTid capturePid tid prog int64Max 0).registerTime = 0 ∧
    (buildThreadMeta threadName pidFromTid capturePid tid prog int64Max 0).unregisterTime = 0 ∧
    collectZone acc category z = acc ∧
    (lockWalkStep lcat lockId lockName threadBit s ev).markers = s.markers ∧
    (lockWalkStep lcat lockId lockName threadBit s ev).minTime = min s.minTime ev.time ∧
    (lockWalkStep lcat lockId lockName threadBit s ev).maxTime = max s.maxTime ev.time := by
  refine ⟨?_, ?_, ?_, ?_, ?_, ?_, ?_, ?_⟩
  · simp [threadToJson, ThreadTables.init, ns_to_ms]
  · simp [threadToJson, ThreadTables.init, ns_to_ms]
  · simp [buildThreadMeta, ns_to_ms]
  · simp [buildThreadMeta, ns_to_ms]
  · cases z with
    | mk info children =>
        have hz' : info.isEndValid = false := by simpa [Zone.info] using hz
        rw [collectZone, if_pos hz']
  · simp [lockWalkStep, hevt, hrel]
  · simp [lockWalkStep, hevt, hrel]
  · simp [lockWalkStep, hevt, hrel]

/-- Witness for C10 at a concrete invalid-end zone and a concrete `Release`
lock event. -/
theorem empty_thread_times_zero_witness :
    (threadToJson ThreadTables.init).registerTime = 0 ∧
    (threadToJson ThreadTables.init).unregisterTime = 0 ∧
    (buildThreadMeta (some "t") 3 9 4 "p" int64Max 0).registerTime = 0 ∧
    (buildThreadMeta (some "t") 3 9 4 "p" int64Max 0).unregisterTime = 0 ∧
    collectZone ⟨StringTable.empty, int64Max, 0, []⟩ 1
        (Zone.mk ⟨false, "work", none, 0, 1000000, 3000000, "", "", 0⟩ [])
      = ⟨StringTable.empty, int64Max, 0, []⟩ ∧
    (lockWalkStep 4 0 "lk" 3 ⟨StringTable.empty, -1, int64Max, 0, []⟩
        ⟨500, .release, 3⟩).markers
      = (⟨StringTable.empty, -1, int64Max, 0, []⟩ : LockWalkState).markers ∧
    (lockWalkStep 4 0 "lk" 3 ⟨StringTable.empty, -1, int64Max, 0, []⟩
        ⟨500, .release, 3⟩).minTime
      = min (⟨StringTable.empty, -1, int64Max, 0, []⟩ : LockWalkState).minTime 500 ∧
    (lockWalkStep 4 0 "lk" 3 ⟨StringTable.empty, -1, int64Max, 0, []⟩
        ⟨500, .release, 3⟩).maxTime
      = max (⟨StringTable.empty, -1, int64Max, 0, []⟩ : LockWalkState).maxTime 500 :=
  empty_thread_times_zero ⟨StringTable.empty, int64Max, 0, []⟩ 1
    (Zone.mk ⟨false, "work", none, 0, 1000000, 3000000, "", "", 0⟩ []) rfl
    (some "t") 3 9 4 "p" 4 0 "lk" 3 ⟨StringTable.empty, -1, int64Max, 0, []⟩
    ⟨500, .release, 3⟩ rfl rfl

/-- Counterexample to C10's clause "min/max are only updated by elements that
actually produce output": walking a lock timeline holding a single
`Release` event of the matching thread updates `minTime`/`maxTime` from the
sentinels to 500 while emitting no marker at all. -/
theorem minmax_without_output_counterexample :
    (processLockTimeline 4 0 "lk" 3 ⟨StringTable.empty, -1, int64Max, 0, []⟩
        [⟨500, .release, 3⟩]).markers = [] ∧
    (processLockTimeline 4 0 "lk" 3 ⟨StringTable.empty, -1, int64Max, 0, []⟩
        [⟨500, .release, 3⟩]).minTime = 500 ∧
    (processLockTimeline 4 0 "lk" 3 ⟨StringTable.empty, -1, int64Max, 0, []⟩
        [⟨500, .release, 3⟩]).maxTime = 500 := by
  refine ⟨?_, ?_, ?_⟩ <;> decide
